import Mathlib

/-!
Verification development for the 3W chart toolkit (`src/toolkit/charts.py`).

The repository contains a single class `ThreeWChart` built on pandas and
plotly.  We embed its data-to-visual pipeline shallowly:

* pandas cells are modelled by `Cell` (an integer value or a missing
  value `na`, standing for float NaN);
* the row view used by `_get_background_shapes` is `Row`
  (a timestamp plus an optional integer class label, `none` = NaN);
* the column view used by `_get_non_zero_columns` and `plot` is `Df`,
  an ordered association list of named columns;
* the raw row-major input of `_load_data` is `RawRow`;
* plotly side effects (`print` warnings, the figure object) are made
  explicit: the segmenter returns its warnings, `plot` returns an
  `Except` value carrying either a `PlotError` (a raised exception) or a
  `PlotResult` record of everything `plot` put into the figure.

Constant fields of the emitted plotly dictionaries (`type="rect"`,
`y0=0`, `y1=1`, `xref`, `yref`, `opacity=0.2`, `line_width=0`) are the
same for every shape and are omitted from the `Shape` record; only the
data-dependent fields (`x0`, `x1`, `fillcolor`) are kept.
-/

/-- A pandas cell: an integer sensor value or a missing value (float NaN).
String-valued cells do not occur in the 3W data and are outside the model. -/
inductive Cell
  | num (v : Int)
  | na
deriving DecidableEq

/-- Row view of the table as read by `_get_background_shapes`:
`df.iloc[i]['timestamp']` and `df.iloc[i]['class']`.  An invalid (NaN)
class label is `none`. -/
structure Row where
  timestamp : Int
  «class» : Option Int
deriving DecidableEq

/-- The data-dependent fields of one background-shape dictionary
(`x0`, `x1`, `fillcolor`); the remaining fields of the dictionary built at
`charts.py:150` are constants and are omitted. -/
structure Shape where
  x0 : Int
  x1 : Int
  fillcolor : String
deriving DecidableEq

/-- `self.class_colors` (charts.py:79), in declaration order. -/
def classColors : List (Int × String) :=
  [(0, "white"), (1, "blue"), (2, "coral"), (3, "green"), (4, "yellow"),
   (5, "brown"), (6, "pink"), (7, "gray"), (8, "salmon"), (9, "red"),
   (101, "cyan"), (102, "lightcoral"), (105, "beige"), (106, "lightpink"),
   (107, "lightgray"), (108, "lightsalmon"), (109, "orange")]

/-- `self.class_mapping` (charts.py:59), in declaration order. -/
def classMapping : List (Int × String) :=
  [(0, "Normal Operation"),
   (1, "Abrupt Increase of BSW"),
   (2, "Spurious Closure of DHSV"),
   (3, "Severe Slugging"),
   (4, "Flow Instability"),
   (5, "Rapid Productivity Loss"),
   (6, "Quick Restriction in PCK"),
   (7, "Scaling in PCK"),
   (8, "Hydrate in Production Line"),
   (9, "Hydrate in Service Line"),
   (101, "Transient: Abruption Increase of BSW"),
   (102, "Transient: Spurious Closure of DHSV"),
   (105, "Transient: Rapid Productivity Loss"),
   (106, "Transient: Quick Restriction in PCK"),
   (107, "Transient: Scaling in PCK"),
   (108, "Transient: Hydrate in Production Line"),
   (109, "Transient: Hydrate in Service Line")]

/-- `self.class_colors.get(c, "white")` (charts.py:156). -/
def colorGet (c : Int) : String :=
  (classColors.lookup c).getD ("white")

/-- The loop of `_get_background_shapes` (charts.py:142-161).  The state
variables of the python loop are passed explicitly: `prev` is
`prev_class`, `startTs` is `df.iloc[start_idx]['timestamp']` (the
timestamp at the current `start_idx`), `lastTs` is
`df.iloc[i - 1]['timestamp']` (the timestamp of the row examined in the
previous iteration), `shapes` the accumulated shape list, `warns` the
indices for which the NaN warning was printed, and `i` the loop index.
After the loop the final open run is closed (charts.py:163-172). -/
def segAux : List Row → Option Int → Int → Int → List Shape → List Nat → Nat →
    List Shape × List Nat
  | [], prev, startTs, lastTs, shapes, warns, _ =>
    match prev with
    | none => (shapes, warns)
    | some p => (shapes ++ [⟨startTs, lastTs, colorGet p⟩], warns)
  | r :: rest, prev, startTs, lastTs, shapes, warns, i =>
    match r.«class» with
    | none => segAux rest prev startTs r.timestamp shapes (warns ++ [i]) (i + 1)
    | some c =>
      match prev with
      | none => segAux rest (some c) startTs r.timestamp shapes warns (i + 1)
      | some p =>
        if c ≠ p then
          segAux rest (some c) r.timestamp r.timestamp
            (shapes ++ [⟨startTs, lastTs, colorGet p⟩]) warns (i + 1)
        else
          segAux rest (some c) startTs r.timestamp shapes warns (i + 1)

/-- `_get_background_shapes` (charts.py:124-174), returning both the shape
list and the indices of rows for which the NaN-class warning was printed.
`start_idx` is initialised to `0`, so `startTs` starts as the first row's
timestamp; it is never read when the table is empty. -/
def getBackgroundShapes (rows : List Row) : List Shape × List Nat :=
  match rows with
  | [] => ([], [])
  | r :: _ => segAux rows none r.timestamp r.timestamp [] [] 0

/-- Spec transcription, open-run state: a run with (previous valid) label
`p` is open, its run-start row has timestamp `s`, and the previously
scanned row has timestamp `l`.  Following the spec sentence: when a row's
valid label differs from the previous valid label, the open run is closed
as a segment from the run-start timestamp to the previous row's timestamp
with the previous label's color and a new run starts at the current row;
an invalid label only advances the previous-row timestamp; after the scan
the final open run is closed at the last row's timestamp. -/
def specSegsOpen (p : Int) (s l : Int) : List Row → List Shape
  | [] => [⟨s, l, colorGet p⟩]
  | r :: rest =>
    match r.«class» with
    | none => specSegsOpen p s r.timestamp rest
    | some c =>
      if c = p then specSegsOpen p s r.timestamp rest
      else ⟨s, l, colorGet p⟩ :: specSegsOpen c r.timestamp r.timestamp rest

/-- Spec transcription, no-run-yet state: no valid label has been seen,
the tracked run-start position is still the row with timestamp `s`.
If the scan ends in this state no segment is emitted. -/
def specSegsClosed (s : Int) : List Row → List Shape
  | [] => []
  | r :: rest =>
    match r.«class» with
    | none => specSegsClosed s rest
    | some c => specSegsOpen c s r.timestamp rest

/-- Spec transcription of the whole segmenter, claim C1 / spec section 4.2:
scan the rows in order from the first row. -/
def specSegments : List Row → List Shape
  | [] => []
  | r :: rest => specSegsClosed r.timestamp (r :: rest)

/-- Indices (counting from `i`) of the rows whose class label is invalid:
exactly the rows for which the segmenter prints its NaN warning. -/
def invalidIdxFrom (i : Nat) : List Row → List Nat
  | [] => []
  | r :: rest =>
    match r.«class» with
    | none => i :: invalidIdxFrom (i + 1) rest
    | some _ => invalidIdxFrom (i + 1) rest

/-- Indices of the invalid-label rows of a table. -/
def invalidIndices (rows : List Row) : List Nat :=
  invalidIdxFrom 0 rows

/-- Placeholder row used only as the default of `List.headD`/`List.getLastD`
in statements about lists proved nonempty. -/
def dummyRow : Row := ⟨0, none⟩

/-- Placeholder shape, same role as `dummyRow`. -/
def dummyShape : Shape := ⟨0, 0, "white"⟩

/-- Color of an optional class label: the valid case goes through the
color table with its `"white"` default, exactly as the segmenter does. -/
def colorOptGet : Option Int → String
  | some c => colorGet c
  | none => "white"

/-- The segment a maximal run of rows denotes: from the run's first
timestamp to the run's last timestamp, colored by the run's label. -/
def segOfRun (run : List Row) : Shape :=
  ⟨(run.headD dummyRow).timestamp, (run.getLastD dummyRow).timestamp,
    colorOptGet ((run.headD dummyRow).«class»)⟩

/-- Decomposition of a table into maximal runs of equal consecutive
labels: `run` holds the rows of the current run before its last row `a`. -/
def chunkGo (run : List Row) (a : Row) : List Row → List (List Row)
  | [] => [run ++ [a]]
  | r :: rest =>
    if r.«class» = a.«class» then chunkGo (run ++ [a]) r rest
    else (run ++ [a]) :: chunkGo [] r rest

/-- Maximal runs of equal consecutive labels of a table. -/
def chunkRuns : List Row → List (List Row)
  | [] => []
  | r :: rest => chunkGo [] r rest

/-- Number of maximal runs of equal consecutive labels, continuation
form: one run is open and carries label `c`. -/
def countRunsFrom (c : Option Int) : List (Option Int) → Nat
  | [] => 1
  | d :: rest => if d = c then countRunsFrom c rest else 1 + countRunsFrom d rest

/-- Number of maximal runs of equal consecutive labels of a label list. -/
def countRuns : List (Option Int) → Nat
  | [] => 0
  | c :: rest => countRunsFrom c rest

/-- Numeric reading of a cell.  Cells compared or sorted by `_load_data`
are timestamps that survived `dropna`, hence never `na`; the `na` case
is an arbitrary total-function default. -/
def cellToInt : Cell → Int
  | .num v => v
  | .na => 0

/-- One raw row of the parquet file after `reset_index` (charts.py:104)
has materialised the timestamp index as an explicit column: a timestamp
cell plus the remaining cells in column order. -/
structure RawRow where
  timestamp : Cell
  fields : List Cell
deriving DecidableEq

/-- `df.dropna(subset=["timestamp"])` (charts.py:105). -/
def dropMissingTs (raw : List RawRow) : List RawRow :=
  raw.filter (fun r => r.timestamp != Cell.na)

/-- `df.drop_duplicates("timestamp")` (charts.py:105): keep the first row
of every timestamp; `seen` is the set of timestamps already kept. -/
def dedupByTs (seen : List Cell) : List RawRow → List RawRow
  | [] => []
  | r :: rest =>
    if r.timestamp ∈ seen then dedupByTs seen rest
    else r :: dedupByTs (r.timestamp :: seen) rest

/-- `fillna(0)` on one cell (charts.py:105). -/
def fillCell : Cell → Cell
  | .na => .num 0
  | c => c

/-- `fillna(0)` on one row. -/
def fillRow (r : RawRow) : RawRow :=
  ⟨fillCell r.timestamp, r.fields.map fillCell⟩

/-- Comparison used by `df.sort_values(by="timestamp")` (charts.py:106). -/
def tsLE (a b : RawRow) : Prop :=
  cellToInt a.timestamp ≤ cellToInt b.timestamp

instance : DecidableRel tsLE :=
  fun a b => inferInstanceAs (Decidable (cellToInt a.timestamp ≤ cellToInt b.timestamp))

instance : IsTotal RawRow tsLE :=
  ⟨fun a b => Int.le_total (cellToInt a.timestamp) (cellToInt b.timestamp)⟩

instance : IsTrans RawRow tsLE :=
  ⟨fun _ _ _ hab hbc => le_trans hab hbc⟩

/-- `df.sort_values(by="timestamp")` (charts.py:106).  Timestamps are
pairwise distinct at this point of the pipeline, so every correct sort
produces the same list and the choice of algorithm is irrelevant. -/
def sortByTs (rows : List RawRow) : List RawRow :=
  rows.insertionSort tsLE

/-- `_load_data` after the file has been read (charts.py:104-106):
drop rows with missing timestamp, deduplicate by timestamp keeping the
first occurrence, fill the remaining missing cells with 0, sort
ascending by timestamp — in this order. -/
def loadData (raw : List RawRow) : List RawRow :=
  sortByTs ((dedupByTs [] (dropMissingTs raw)).map fillRow)

/-- `bool(cell)` as used by `df[col].astype(bool)` (charts.py:122): a
number is truthy iff non-zero; float NaN casts to `True` in numpy and
pandas. -/
def cellToBool : Cell → Bool
  | .num v => v != 0
  | .na => true

/-- The column view of a loaded table: the ordered, named columns of the
pandas DataFrame. -/
structure Df where
  cols : List (String × List Cell)
deriving DecidableEq

/-- `df[name]`: association-list column lookup; `none` models the
`KeyError` raised by pandas on a missing column. -/
def getCol (df : Df) (name : String) : Option (List Cell) :=
  df.cols.lookup name

/-- `_get_non_zero_columns` (charts.py:108-122): the columns whose
boolean cast has a positive sum, excluding `timestamp` and `class`,
in table-column order. -/
def getNonZeroColumns (df : Df) : List String :=
  (df.cols.filter
    (fun p => (0 < p.2.countP cellToBool : Bool) &&
      p.1 != "timestamp" && p.1 != "class")).map (fun p => p.1)

/-- Optional class label read from a class-column cell: NaN is the
invalid label. -/
def cellToClass : Cell → Option Int
  | .num v => some v
  | .na => none

/-- The row view of a column table, as traversed by
`_get_background_shapes` via `df.iloc[i]['timestamp']` and
`df.iloc[i]['class']`.  Loaded tables always carry both columns with
equal lengths; for other tables the missing entries default to NaN-like
values, a case no claim exercises. -/
def rowsOfDf (df : Df) : List Row :=
  (List.zip ((getCol df ("timestamp")).getD []) ((getCol df ("class")).getD [])).map
    (fun p => ⟨cellToInt p.1, cellToClass p.2⟩)

/-- The non-fatal diagnostics printed by `plot` and
`_get_background_shapes`. -/
inductive Warning
  | invalidLabel (idx : Nat)
  | fallbackChannel (requested : String)
deriving DecidableEq

/-- The exceptions `plot` can raise: `ValueError("No available columns
to plot.")` (charts.py:226 and 248) and pandas `KeyError` on direct
column indexing. -/
inductive PlotError
  | noPlottableData
  | missingColumn (name : String)
deriving DecidableEq

/-- The data line trace `go.Scatter(x=df["timestamp"], y=..., name=...)`
(charts.py:228 and 251). -/
structure Trace where
  x : List Cell
  y : List Cell
  name : String
deriving DecidableEq

/-- One legend-only marker trace added by `_add_custom_legend`
(charts.py:185-192): its display name and marker color. -/
structure LegendEntry where
  name : String
  color : String
deriving DecidableEq

/-- `_add_custom_legend` (charts.py:176-192): one entry per
`class_mapping` item, in declaration order, named
`f"{class_value}: {event_name}"` and colored by
`class_colors[class_value]` (every mapping key has a color, so the
lookup default is never used). -/
def legendEntries : List LegendEntry :=
  classMapping.map
    (fun p => ⟨toString p.1 ++ ": " ++ p.2, (classColors.lookup p.1).getD ("white")⟩)

/-- `list.index` (charts.py:232); total model, the element is always
present at the call site. -/
def listIdxOf (a : String) : List String → Nat
  | [] => 0
  | x :: rest => if x = a then 0 else 1 + listIdxOf a rest

/-- Everything `plot` puts into the figure it shows: the data trace, the
dropdown state (button labels and active index) when the dropdown is
used, the background shapes, the layout titles, the legend traces, the
final `self.y_axis` attribute, and the printed warnings in order. -/
structure PlotResult where
  trace : Trace
  dropdown : Option (List String × Nat)
  shapes : List Shape
  xaxisTitle : String
  yaxisTitle : String
  title : String
  legend : List LegendEntry
  activeY : String
  warnings : List Warning
deriving DecidableEq

/-- `plot` (charts.py:194-262), after `_load_data` has produced `df`.
With the dropdown: compute the eligible columns, raise
`ValueError` when none exists, fall back to the first eligible column
(with a printed warning) when the requested one is not eligible, raise
`ValueError` when the selected series is empty, and title the y-axis
with `available_y_axes[0]`.  Without the dropdown: index the requested
column directly (KeyError when absent, `x=df["timestamp"]` being
evaluated first) and title the y-axis with `self.y_axis`.  Shapes and
the custom legend are added in both cases. -/
def plot (df : Df) (yAxis : String) (useDropdown : Bool) (title : String) :
    Except PlotError PlotResult :=
  if useDropdown then
    match getNonZeroColumns df with
    | [] => .error .noPlottableData
    | first :: _ =>
      let available := getNonZeroColumns df
      let resolved :=
        if available.contains yAxis then (yAxis, ([] : List Warning))
        else (first, [Warning.fallbackChannel yAxis])
      let yVals := (getCol df resolved.1).getD []
      if yVals.isEmpty then .error .noPlottableData
      else
        match getCol df ("timestamp") with
        | none => .error (.missingColumn ("timestamp"))
        | some ts =>
          let seg := getBackgroundShapes (rowsOfDf df)
          .ok
            { trace := ⟨ts, yVals, resolved.1⟩
              dropdown := some (available, listIdxOf resolved.1 available)
              shapes := seg.1
              xaxisTitle := "Timestamp"
              yaxisTitle := first
              title := title
              legend := legendEntries
              activeY := resolved.1
              warnings := resolved.2 ++ seg.2.map Warning.invalidLabel }
  else
    match getCol df ("timestamp") with
    | none => .error (.missingColumn ("timestamp"))
    | some ts =>
      match getCol df yAxis with
      | none => .error (.missingColumn yAxis)
      | some yVals =>
        let seg := getBackgroundShapes (rowsOfDf df)
        .ok
          { trace := ⟨ts, yVals, yAxis⟩
            dropdown := none
            shapes := seg.1
            xaxisTitle := "Timestamp"
            yaxisTitle := yAxis
            title := title
            legend := legendEntries
            activeY := yAxis
            warnings := seg.2.map Warning.invalidLabel }

/-- Property of the result of a successful `plot`; vacuous on a raised
exception. -/
def resultProp (e : Except PlotError PlotResult) (P : PlotResult → Prop) : Prop :=
  match e with
  | .error _ => True
  | .ok r => P r

/-- Legend of a successful `plot`. -/
def legendOfResult : Except PlotError PlotResult → Option (List LegendEntry)
  | .ok r => some r.legend
  | .error _ => none

/-- Y-axis title of a successful `plot`. -/
def yTitleOfResult : Except PlotError PlotResult → Option String
  | .ok r => some r.yaxisTitle
  | .error _ => none

/-- Final `self.y_axis` (the active channel) of a successful `plot`. -/
def activeYOfResult : Except PlotError PlotResult → Option String
  | .ok r => some r.activeY
  | .error _ => none

lemma segAux_open (rows : List Row) : ∀ (p : Int) (s l : Int)
    (shapes : List Shape) (warns : List Nat) (i : Nat),
    segAux rows (some p) s l shapes warns i =
      (shapes ++ specSegsOpen p s l rows, warns ++ invalidIdxFrom i rows) := by
  induction rows with
  | nil => intro p s l shapes warns i; simp [segAux, specSegsOpen, invalidIdxFrom]
  | cons r rest ih =>
    intro p s l shapes warns i
    match hc : r.«class» with
    | none =>
      simp only [segAux, hc, specSegsOpen, invalidIdxFrom, ih]
      simp
    | some c =>
      by_cases hcp : c = p
      · subst hcp
        simp only [segAux, hc, specSegsOpen, invalidIdxFrom, if_pos rfl, ne_eq,
          not_true_eq_false, if_false, ih]
        simp
      · simp only [segAux, hc, specSegsOpen, invalidIdxFrom, ne_eq, hcp,
        not_false_eq_true, if_true, if_neg hcp, ih]
        simp

lemma segAux_closed (rows : List Row) : ∀ (s l : Int)
    (shapes : List Shape) (warns : List Nat) (i : Nat),
    segAux rows none s l shapes warns i =
      (shapes ++ specSegsClosed s rows, warns ++ invalidIdxFrom i rows) := by
  induction rows with
  | nil => intro s l shapes warns i; simp [segAux, specSegsClosed, invalidIdxFrom]
  | cons r rest ih =>
    intro s l shapes warns i
    match hc : r.«class» with
    | none =>
      simp only [segAux, hc, specSegsClosed, invalidIdxFrom, ih]
      simp
    | some c =>
      simp only [segAux, hc, specSegsClosed, invalidIdxFrom, segAux_open]

/-- The segmenter computes exactly the spec transcription together with
one warning per invalid row. -/
lemma getBackgroundShapes_eq (rows : List Row) :
    getBackgroundShapes rows = (specSegments rows, invalidIndices rows) := by
  match rows with
  | [] => rfl
  | r :: rest =>
    simp [getBackgroundShapes, specSegments, invalidIndices, segAux_closed]

lemma specSegsOpen_ne_nil (rows : List Row) :
    ∀ (p : Int) (s l : Int), specSegsOpen p s l rows ≠ [] := by
  induction rows with
  | nil => intro p s l; simp [specSegsOpen]
  | cons r rest ih =>
    intro p s l
    match hc : r.«class» with
    | none => simpa [specSegsOpen, hc] using ih p s r.timestamp
    | some c =>
      by_cases hcp : c = p
      · subst hcp; simpa [specSegsOpen, hc] using ih c s r.timestamp
      · simp [specSegsOpen, hc, hcp]

lemma specSegsClosed_eq_nil_iff (rows : List Row) :
    ∀ (s : Int), specSegsClosed s rows = [] ↔ ∀ r ∈ rows, r.«class» = none := by
  induction rows with
  | nil => intro s; simp [specSegsClosed]
  | cons r rest ih =>
    intro s
    match hc : r.«class» with
    | none => simp [specSegsClosed, hc, ih]
    | some c => simp [specSegsClosed, hc, specSegsOpen_ne_nil]

lemma chunkGo_join (l : List Row) : ∀ (run : List Row) (a : Row),
    (chunkGo run a l).flatten = run ++ a :: l := by
  induction l with
  | nil => intro run a; simp [chunkGo]
  | cons r rest ih =>
    intro run a
    by_cases h : r.«class» = a.«class»
    · simp [chunkGo, h, ih]
    · simp [chunkGo, h, ih]

lemma chunkGo_ne_nil (l : List Row) : ∀ (run : List Row) (a : Row),
    chunkGo run a l ≠ [] := by
  induction l with
  | nil => intro run a; simp [chunkGo]
  | cons r rest ih =>
    intro run a
    by_cases h : r.«class» = a.«class»
    · simp [chunkGo, h, ih]
    · simp [chunkGo, h]

lemma chunkGo_mem_ne_nil (l : List Row) : ∀ (run : List Row) (a : Row),
    ∀ chunk ∈ chunkGo run a l, chunk ≠ [] := by
  induction l with
  | nil =>
    intro run a chunk hm
    simp only [chunkGo, List.mem_singleton] at hm
    subst hm; simp
  | cons r rest ih =>
    intro run a chunk hm
    by_cases h : r.«class» = a.«class»
    · exact ih (run ++ [a]) r chunk (by simpa [chunkGo, h] using hm)
    · simp only [chunkGo, h, if_false, List.mem_cons] at hm
      rcases hm with hm | hm
      · subst hm; simp
      · exact ih [] r chunk hm

lemma chunkGo_mem_const (l : List Row) : ∀ (run : List Row) (a : Row),
    (∀ x ∈ run, x.«class» = a.«class») →
    ∀ chunk ∈ chunkGo run a l, ∀ x ∈ chunk, ∀ y ∈ chunk, x.«class» = y.«class» := by
  induction l with
  | nil =>
    intro run a hinv chunk hm x hx y hy
    simp only [chunkGo, List.mem_singleton] at hm
    subst hm
    have hall : ∀ z ∈ run ++ [a], z.«class» = a.«class» := by
      intro z hz
      rcases List.mem_append.mp hz with hz | hz
      · exact hinv z hz
      · simp only [List.mem_singleton] at hz; subst hz; rfl
    rw [hall x hx, hall y hy]
  | cons r rest ih =>
    intro run a hinv chunk hm x hx y hy
    by_cases h : r.«class» = a.«class»
    · refine ih (run ++ [a]) r ?_ chunk (by simpa [chunkGo, h] using hm) x hx y hy
      intro z hz
      rcases List.mem_append.mp hz with hz | hz
      · rw [hinv z hz, h]
      · simp only [List.mem_singleton] at hz; subst hz; rw [h]
    · simp only [chunkGo, h, if_false, List.mem_cons] at hm
      rcases hm with hm | hm
      · subst hm
        have hall : ∀ z ∈ run ++ [a], z.«class» = a.«class» := by
          intro z hz
          rcases List.mem_append.mp hz with hz | hz
          · exact hinv z hz
          · simp only [List.mem_singleton] at hz; subst hz; rfl
        rw [hall x hx, hall y hy]
      · exact ih [] r (by simp) chunk hm x hx y hy

lemma chunkGo_head (l : List Row) : ∀ (run : List Row) (a : Row),
    ((chunkGo run a l).headD []).headD dummyRow = (run ++ [a]).headD dummyRow := by
  induction l with
  | nil => intro run a; simp [chunkGo]
  | cons r rest ih =>
    intro run a
    by_cases h : r.«class» = a.«class»
    · rw [chunkGo, if_pos h, ih (run ++ [a]) r]
      cases run <;> simp
    · rw [chunkGo, if_neg h]
      simp

lemma getLastD_congr {α : Type} (l : List α) (d1 d2 : α) (h : l ≠ []) :
    l.getLastD d1 = l.getLastD d2 := by
  cases l with
  | nil => exact absurd rfl h
  | cons x xs => rw [List.getLastD_cons, List.getLastD_cons]

lemma chunkGo_last (l : List Row) : ∀ (run : List Row) (a : Row),
    ((chunkGo run a l).getLastD []).getLastD dummyRow = (a :: l).getLastD dummyRow := by
  induction l with
  | nil => intro run a; simp [chunkGo]
  | cons r rest ih =>
    intro run a
    by_cases h : r.«class» = a.«class»
    · rw [chunkGo, if_pos h, ih (run ++ [a]) r]
      simp
    · rw [chunkGo, if_neg h, List.getLastD_cons,
        getLastD_congr _ (run ++ [a]) [] (chunkGo_ne_nil rest [] r), ih [] r]
      simp

lemma headD_append_of_ne_nil {α : Type} (l l' : List α) (d : α) (h : l ≠ []) :
    (l ++ l').headD d = l.headD d := by
  cases l with
  | nil => exact absurd rfl h
  | cons x xs => simp

lemma chunkGo_chain (l : List Row) : ∀ (run : List Row) (a : Row),
    List.Chain'
      (fun u v => (u.getLastD dummyRow).«class» ≠ (v.headD dummyRow).«class»)
      (chunkGo run a l) := by
  induction l with
  | nil => intro run a; simp [chunkGo]
  | cons r rest ih =>
    intro run a
    by_cases h : r.«class» = a.«class»
    · rw [chunkGo, if_pos h]
      exact ih (run ++ [a]) r
    · rw [chunkGo, if_neg h]
      refine List.Chain'.cons' (ih [] r) ?_
      intro y hy
      have hyd : y = (chunkGo [] r rest).headD [] := by
        cases hl : chunkGo [] r rest with
        | nil => exact absurd hl (chunkGo_ne_nil rest [] r)
        | cons c cs =>
          rw [hl] at hy
          simp only [List.head?_cons, Option.mem_some_iff] at hy
          simp only [List.headD_cons]
          exact hy.symm
      rw [hyd, chunkGo_head]
      simpa using fun hh => h hh.symm

lemma chunkGo_length (l : List Row) : ∀ (run : List Row) (a : Row),
    (chunkGo run a l).length = countRunsFrom a.«class» (l.map (fun r => r.«class»)) := by
  induction l with
  | nil => intro run a; simp [chunkGo, countRunsFrom]
  | cons r rest ih =>
    intro run a
    by_cases h : r.«class» = a.«class»
    · rw [chunkGo, if_pos h]
      simp only [List.map_cons, countRunsFrom, if_pos h, ← h]
      exact ih (run ++ [a]) r
    · rw [chunkGo, if_neg h]
      simp only [List.map_cons, countRunsFrom, if_neg h, List.length_cons]
      rw [ih [] r]
      omega

lemma chunkGo_spec (rows : List Row) : ∀ (run : List Row) (a : Row) (c : Int),
    (∀ x ∈ rows, (x.«class»).isSome) → a.«class» = some c →
    (∀ x ∈ run, x.«class» = some c) →
    (chunkGo run a rows).map segOfRun =
      specSegsOpen c ((run ++ [a]).headD dummyRow).timestamp a.timestamp rows := by
  induction rows with
  | nil =>
    intro run a c hval ha hrun
    have hhead : ((run ++ [a]).headD dummyRow).«class» = some c := by
      cases run with
      | nil => simpa using ha
      | cons x xs => simpa using hrun x (by simp)
    have hlast : (run ++ [a]).getLastD dummyRow = a := by simp
    simp only [chunkGo, List.map_cons, List.map_nil, specSegsOpen, segOfRun]
    rw [hlast, hhead]
    simp only [colorOptGet]
  | cons r rest ih =>
    intro run a c hval ha hrun
    have hr : (r.«class»).isSome := hval r (by simp)
    match hd : r.«class» with
    | none => rw [hd] at hr; exact absurd hr (by simp)
    | some d =>
      by_cases hdc : d = c
      · subst hdc
        have hsame : r.«class» = a.«class» := by rw [hd, ha]
        rw [chunkGo, if_pos hsame]
        have hrun2 : ∀ x ∈ run ++ [a], x.«class» = some d := by
          intro x hx
          rcases List.mem_append.mp hx with hx | hx
          · exact hrun x hx
          · simp only [List.mem_singleton] at hx; subst hx; exact ha
        rw [ih (run ++ [a]) r d (fun x hx => hval x (by simp [hx])) hd hrun2,
          headD_append_of_ne_nil (run ++ [a]) ([r]) dummyRow (by simp)]
        simp only [specSegsOpen, hd, if_pos rfl]
        simp
      · have hdiff : ¬ r.«class» = a.«class» := by rw [hd, ha]; simpa using hdc
        rw [chunkGo, if_neg hdiff]
        simp only [List.map_cons]
        rw [ih [] r d (fun x hx => hval x (by simp [hx])) hd (by simp)]
        have hhead : ((run ++ [a]).headD dummyRow).«class» = some c := by
          cases run with
          | nil => simpa using ha
          | cons x xs => simpa using hrun x (by simp)
        have hlast : (run ++ [a]).getLastD dummyRow = a := by simp
        simp only [List.nil_append, List.headD_cons]
        simp only [specSegsOpen, hd, if_neg hdc]
        congr 1
        simp only [segOfRun]
        rw [hlast, hhead]
        simp only [colorOptGet]

lemma headD_map_of_ne_nil {α β : Type} (f : α → β) (l : List α) (d : β) (d0 : α)
    (h : l ≠ []) : (l.map f).headD d = f (l.headD d0) := by
  cases l with
  | nil => exact absurd rfl h
  | cons x xs => rfl

lemma getLastD_map_of_ne_nil {α β : Type} (f : α → β) :
    ∀ (l : List α) (d : β) (d0 : α), l ≠ [] → (l.map f).getLastD d = f (l.getLastD d0) := by
  intro l
  induction l with
  | nil => intro d d0 h; exact absurd rfl h
  | cons x xs ih =>
    intro d d0 h
    simp only [List.map_cons, List.getLastD_cons]
    cases xs with
    | nil => rfl
    | cons y ys => exact ih (f x) x (by simp)

/-- For a table whose labels are all valid, the shapes are exactly the
maximal-run decomposition mapped through `segOfRun`. -/
lemma shapes_eq_chunkRuns (rows : List Row) (hval : ∀ r ∈ rows, (r.«class»).isSome) :
    (getBackgroundShapes rows).1 = (chunkRuns rows).map segOfRun := by
  match rows with
  | [] => rfl
  | r :: rest =>
    have hr : (r.«class»).isSome := hval r (by simp)
    match hd : r.«class» with
    | none => rw [hd] at hr; exact absurd hr (by simp)
    | some c =>
      rw [getBackgroundShapes_eq]
      simp only [specSegments, specSegsClosed, hd, chunkRuns]
      rw [chunkGo_spec rest [] r c (fun x hx => hval x (by simp [hx])) hd (by simp)]
      simp

/-- C1: scanning rows in timestamp order, the segmenter closes the open
run at each valid-label change as a segment from the run-start row's
timestamp to the previous row's timestamp with the previous label's
color, closes the final open run at the last row's timestamp after the
scan, and emits no segment at all exactly when the table is empty or
every label was invalid.  The scan behaviour is the spec transcription
`specSegments`; the first conjunct states that `_get_background_shapes`
computes it, the second states the no-segment condition. -/
theorem c1_segmenter_spec :
    (∀ rows : List Row, (getBackgroundShapes rows).1 = specSegments rows) ∧
    (∀ rows : List Row,
      (getBackgroundShapes rows).1 = [] ↔
        rows = [] ∨ ∀ r ∈ rows, r.«class» = none) := by
  constructor
  · intro rows
    rw [getBackgroundShapes_eq]
  · intro rows
    rw [getBackgroundShapes_eq]
    match rows with
    | [] => simp [specSegments]
    | r :: rest =>
      simp only [specSegments, specSegsClosed_eq_nil_iff]
      simp

/-- C2 counterexample: on the table with rows (t=1,class=0), (t=2,class=0),
(t=3,class=1), the claimed segment list (label 0 from 1 to 1 and label 1
from 3 to 3, with the labels' colors white and blue) is NOT what the
segmenter returns: the first run is closed at the previous row's
timestamp 2, not at 1. -/
theorem c2_counterexample :
    (getBackgroundShapes [⟨1, some 0⟩, ⟨2, some 0⟩, ⟨3, some 1⟩]).1 ≠
        [⟨1, 1, colorGet 0⟩, ⟨3, 3, colorGet 1⟩] ∧
      colorGet 0 = "white" ∧ colorGet 1 = "blue" := by
  refine ⟨by decide, by decide, by decide⟩

/-- C2 amended: on the table with rows (t=1,class=0), (t=2,class=0),
(t=3,class=1), segmentation produces exactly the two segments
(label 0, x0=1, x1=2) and (label 1, x0=3, x1=3). -/
theorem c2_amended :
    (getBackgroundShapes [⟨1, some 0⟩, ⟨2, some 0⟩, ⟨3, some 1⟩]).1 =
      [⟨1, 2, colorGet 0⟩, ⟨3, 3, colorGet 1⟩] := by
  decide

/-- C3 counterexample: an invalid row is not simply invisible to the
segmenter.  On the table (t=1,class=NaN), (t=2,class=0) the produced
segment is (x0=1, x1=2): its start is the invalid row's timestamp, so
the invalid row does start the segment's interval; deleting the invalid
row instead yields (x0=2, x1=2).  The last conjunct notes that no valid
row of the table has timestamp 1. -/
theorem c3_counterexample :
    (getBackgroundShapes [⟨1, none⟩, ⟨2, some 0⟩]).1 = [⟨1, 2, "white"⟩] ∧
      (getBackgroundShapes
        (([⟨1, none⟩, ⟨2, some 0⟩] : List Row).filter
          (fun r => r.«class» ≠ none))).1 = [⟨2, 2, "white"⟩] ∧
      (∀ r ∈ ([⟨1, none⟩, ⟨2, some 0⟩] : List Row),
        r.«class» ≠ none → r.timestamp ≠ 1) := by
  refine ⟨by decide, by decide, by decide⟩

/-- C3 amended: an invalid-label row is skipped in the sense that it
emits exactly one diagnostic warning, never closes or resets the open
run and never contributes its label; but its timestamp can still appear
as a segment boundary (as run start when it precedes the first valid
row, or as closing timestamp when it immediately precedes a transition
or ends the table).  First conjunct: the warnings are exactly the
indices of the invalid rows.  Second conjunct: for class values
[0, NaN, 0] at timestamps 1, 2, 3 the result is exactly one segment of
label 0 spanning (1, 3) plus the single warning at index 1. -/
theorem c3_amended :
    (∀ rows : List Row, (getBackgroundShapes rows).2 = invalidIndices rows) ∧
      getBackgroundShapes [⟨1, some 0⟩, ⟨2, none⟩, ⟨3, some 0⟩] =
        ([⟨1, 3, colorGet 0⟩], [1]) := by
  constructor
  · intro rows
    rw [getBackgroundShapes_eq]
  · decide

/-- C4: for every non-empty table whose labels are all valid, the rows
split into a list of parts that concatenates back to the table (no gap,
no overlap), each part a non-empty run of constant label, adjacent parts
carrying different labels (maximality); the segmenter's output is
exactly one segment per part, from the part's first timestamp to the
part's last timestamp; hence the first segment starts at the table's
first timestamp, the last segment ends at the table's last timestamp,
and the number of segments is the number of maximal runs of equal
consecutive labels. -/
theorem c4_coverage (rows : List Row) (hne : rows ≠ [])
    (hval : ∀ r ∈ rows, (r.«class»).isSome) :
    ∃ parts : List (List Row),
      parts.flatten = rows ∧
      (∀ run ∈ parts, run ≠ []) ∧
      (∀ run ∈ parts, ∀ x ∈ run, ∀ y ∈ run, x.«class» = y.«class») ∧
      List.Chain'
        (fun u v => (u.getLastD dummyRow).«class» ≠ (v.headD dummyRow).«class»)
        parts ∧
      (getBackgroundShapes rows).1 = parts.map segOfRun ∧
      ((getBackgroundShapes rows).1.headD dummyShape).x0 =
        (rows.headD dummyRow).timestamp ∧
      ((getBackgroundShapes rows).1.getLastD dummyShape).x1 =
        (rows.getLastD dummyRow).timestamp ∧
      (getBackgroundShapes rows).1.length =
        countRuns (rows.map (fun r => r.«class»)) := by
  match rows with
  | [] => exact absurd rfl hne
  | r :: rest =>
    have hshapes := shapes_eq_chunkRuns (r :: rest) hval
    have hchunk : chunkRuns (r :: rest) = chunkGo [] r rest := rfl
    rw [hchunk] at hshapes
    have hnonempty := chunkGo_ne_nil rest [] r
    refine ⟨chunkGo [] r rest, ?_, ?_, ?_, ?_, hshapes, ?_, ?_, ?_⟩
    · simpa using chunkGo_join rest [] r
    · exact chunkGo_mem_ne_nil rest [] r
    · exact chunkGo_mem_const rest [] r (by simp)
    · exact chunkGo_chain rest [] r
    · rw [hshapes, headD_map_of_ne_nil segOfRun _ dummyShape [] hnonempty]
      have hh := chunkGo_head rest [] r
      simp only [List.nil_append, List.headD_cons] at hh
      simp only [segOfRun, hh, List.headD_cons]
    · rw [hshapes, getLastD_map_of_ne_nil segOfRun _ dummyShape [] hnonempty]
      have hl := chunkGo_last rest [] r
      simp only [segOfRun, hl]
    · rw [hshapes, List.length_map, chunkGo_length rest [] r]
      simp [countRuns]

/-- C4 witness: the coverage statement evaluated on the concrete table
(t=1,class=0), (t=2,class=0), (t=3,class=1). -/
theorem c4_coverage_witness :
    ∃ parts : List (List Row),
      parts.flatten = [⟨1, some 0⟩, ⟨2, some 0⟩, ⟨3, some 1⟩] ∧
      (∀ run ∈ parts, run ≠ []) ∧
      (∀ run ∈ parts, ∀ x ∈ run, ∀ y ∈ run, x.«class» = y.«class») ∧
      List.Chain'
        (fun u v => (u.getLastD dummyRow).«class» ≠ (v.headD dummyRow).«class»)
        parts ∧
      (getBackgroundShapes [⟨1, some 0⟩, ⟨2, some 0⟩, ⟨3, some 1⟩]).1 =
        parts.map segOfRun ∧
      ((getBackgroundShapes [⟨1, some 0⟩, ⟨2, some 0⟩, ⟨3, some 1⟩]).1.headD
        dummyShape).x0 =
        (([⟨1, some 0⟩, ⟨2, some 0⟩, ⟨3, some 1⟩] : List Row).headD dummyRow).timestamp ∧
      ((getBackgroundShapes [⟨1, some 0⟩, ⟨2, some 0⟩, ⟨3, some 1⟩]).1.getLastD
        dummyShape).x1 =
        (([⟨1, some 0⟩, ⟨2, some 0⟩, ⟨3, some 1⟩] : List Row).getLastD dummyRow).timestamp ∧
      (getBackgroundShapes [⟨1, some 0⟩, ⟨2, some 0⟩, ⟨3, some 1⟩]).1.length =
        countRuns (([⟨1, some 0⟩, ⟨2, some 0⟩, ⟨3, some 1⟩] : List Row).map
          (fun r => r.«class»)) :=
  c4_coverage [⟨1, some 0⟩, ⟨2, some 0⟩, ⟨3, some 1⟩] (by decide) (by decide)

lemma mem_dedupByTs (l : List RawRow) : ∀ (seen : List Cell) (x : RawRow),
    x ∈ dedupByTs seen l → x ∈ l := by
  induction l with
  | nil => intro seen x h; simp [dedupByTs] at h
  | cons r rest ih =>
    intro seen x h
    by_cases hs : r.timestamp ∈ seen
    · rw [dedupByTs, if_pos hs] at h
      exact List.mem_cons_of_mem r (ih seen x h)
    · rw [dedupByTs, if_neg hs] at h
      rcases List.mem_cons.mp h with h | h
      · exact h ▸ List.mem_cons_self r rest
      · exact List.mem_cons_of_mem r (ih (r.timestamp :: seen) x h)

lemma dedupByTs_props (l : List RawRow) : ∀ (seen : List Cell),
    (∀ x ∈ dedupByTs seen l, x.timestamp ∉ seen) ∧
      ((dedupByTs seen l).map (fun r => r.timestamp)).Nodup := by
  induction l with
  | nil => intro seen; simp [dedupByTs]
  | cons r rest ih =>
    intro seen
    by_cases hs : r.timestamp ∈ seen
    · rw [dedupByTs, if_pos hs]
      exact ih seen
    · rw [dedupByTs, if_neg hs]
      obtain ⟨ihmem, ihnodup⟩ := ih (r.timestamp :: seen)
      refine ⟨?_, ?_⟩
      · intro x hx
        rcases List.mem_cons.mp hx with hx | hx
        · exact hx ▸ hs
        · exact fun hsx => ihmem x hx (List.mem_cons_of_mem _ hsx)
      · simp only [List.map_cons, List.nodup_cons]
        refine ⟨?_, ihnodup⟩
        intro hmem
        rcases List.mem_map.mp hmem with ⟨x, hx, hxe⟩
        exact ihmem x hx (hxe ▸ List.mem_cons_self _ _)

lemma mem_dropMissingTs (raw : List RawRow) (x : RawRow)
    (h : x ∈ dropMissingTs raw) : x.timestamp ≠ Cell.na := by
  have := (List.mem_filter.mp h).2
  simpa using this

lemma fillCell_ne_na (c : Cell) : fillCell c ≠ Cell.na := by
  cases c <;> simp [fillCell]

lemma fillRow_timestamp_of_ne (r : RawRow) (h : r.timestamp ≠ Cell.na) :
    (fillRow r).timestamp = r.timestamp := by
  match hc : r.timestamp with
  | .na => exact absurd hc h
  | .num v => simp [fillRow, hc, fillCell]

/-- C7: for every raw input, the loader's output (obtained by dropping
rows with missing timestamp, deduplicating by timestamp keeping the
first occurrence, filling remaining missing cells with 0 and sorting
ascending by timestamp, in this order — see `loadData`) has strictly
increasing, hence unique, timestamps and contains no missing cell. -/
theorem c7_load_invariants (raw : List RawRow) :
    List.Pairwise
      (fun a b => cellToInt a.timestamp < cellToInt b.timestamp) (loadData raw) ∧
    ((loadData raw).map (fun r => r.timestamp)).Nodup ∧
    (∀ r ∈ loadData raw, r.timestamp ≠ Cell.na ∧ ∀ c ∈ r.fields, c ≠ Cell.na) := by
  classical
  set D := dedupByTs [] (dropMissingTs raw) with hD
  set F := D.map fillRow with hF
  have hperm : List.Perm (F.insertionSort tsLE) F := List.perm_insertionSort tsLE F
  have hsorted : List.Sorted tsLE (F.insertionSort tsLE) :=
    List.sorted_insertionSort tsLE F
  have hDna : ∀ x ∈ D, x.timestamp ≠ Cell.na := by
    intro x hx
    exact mem_dropMissingTs raw x (mem_dedupByTs _ [] x hx)
  have hkeysF : F.map (fun r => r.timestamp) = D.map (fun r => r.timestamp) := by
    rw [hF, List.map_map]
    exact List.map_congr_left (fun x hx => fillRow_timestamp_of_ne x (hDna x hx))
  have hnodupF : (F.map (fun r => r.timestamp)).Nodup := by
    rw [hkeysF]
    exact (dedupByTs_props (dropMissingTs raw) []).2
  have hnodupR : ((F.insertionSort tsLE).map (fun r => r.timestamp)).Nodup :=
    ((hperm.map (fun r => r.timestamp)).nodup_iff).mpr hnodupF
  have hmemna : ∀ r ∈ F.insertionSort tsLE,
      r.timestamp ≠ Cell.na ∧ ∀ c ∈ r.fields, c ≠ Cell.na := by
    intro r hr
    have hrF : r ∈ F := hperm.mem_iff.mp hr
    rcases List.mem_map.mp hrF with ⟨y, _, hy⟩
    constructor
    · rw [← hy]
      exact fillCell_ne_na y.timestamp
    · intro c hc
      rw [← hy] at hc
      rcases List.mem_map.mp hc with ⟨d, _, hd⟩
      exact hd ▸ fillCell_ne_na d
  have hne : List.Pairwise
      (fun a b => a.timestamp ≠ b.timestamp) (F.insertionSort tsLE) :=
    List.pairwise_map.mp hnodupR
  have hlt : List.Pairwise
      (fun a b => cellToInt a.timestamp < cellToInt b.timestamp)
      (F.insertionSort tsLE) := by
    refine List.Pairwise.imp_of_mem ?_ (hsorted.and hne)
    intro a b ha hb hab
    obtain ⟨hle, hnee⟩ := hab
    have hana := (hmemna a ha).1
    have hbna := (hmemna b hb).1
    match hca : a.timestamp, hcb : b.timestamp with
    | .na, _ => exact absurd hca hana
    | .num x, .na => exact absurd hcb hbna
    | .num x, .num y =>
      simp only [tsLE, hca, hcb, cellToInt] at hle
      rw [hca, hcb] at hnee
      simp only [cellToInt]
      refine lt_of_le_of_ne hle (fun hxy => hnee ?_)
      rw [hxy]
  exact ⟨hlt, hnodupR, hmemna⟩

/-- C5: with the dropdown enabled, channel resolution on the eligible
set `getNonZeroColumns df`: a requested channel that is eligible is kept
unchanged and no fallback warning is printed; a requested channel that
is not eligible while the eligible set is non-empty resolves to the
first eligible channel (in table-column order) with a printed fallback
warning; an empty eligible set makes `plot` raise (`noPlottableData`)
before any part of the chart is produced. -/
theorem c5_resolve (df : Df) (y t : String) :
    (getNonZeroColumns df = [] → plot df y true t = .error .noPlottableData) ∧
    (y ∈ getNonZeroColumns df →
      resultProp (plot df y true t)
        (fun r => r.activeY = y ∧ ∀ s, Warning.fallbackChannel s ∉ r.warnings)) ∧
    (∀ first rest, getNonZeroColumns df = first :: rest →
      y ∉ getNonZeroColumns df →
      resultProp (plot df y true t)
        (fun r => r.activeY = first ∧ Warning.fallbackChannel y ∈ r.warnings)) := by
  refine ⟨fun h => ?_, fun hy => ?_, fun first rest heq hyn => ?_⟩
  · simp [plot, h]
  · match h : getNonZeroColumns df with
    | [] => rw [h] at hy; exact absurd hy (by simp)
    | f :: rs =>
      rw [h] at hy
      have hc : (f :: rs).contains y = true := by simpa using hy
      simp only [plot, h, hc, if_true]
      by_cases hemp : ((getCol df y).getD []) = []
      · simp [hemp, resultProp]
      · cases hts : getCol df ("timestamp") with
        | none => simp [hemp, hts, resultProp]
        | some ts =>
          simp only [hemp, hts, resultProp, List.isEmpty_iff, if_neg hemp]
          exact ⟨rfl, by simp⟩
  · match h : getNonZeroColumns df with
    | [] => rw [h] at heq; cases heq
    | f :: rs =>
      rw [h] at heq hyn
      injection heq with hf hrs
      have hc : (f :: rs).contains y = false := by simpa using hyn
      simp only [plot, h, hc, Bool.false_eq_true, if_false]
      by_cases hemp : ((getCol df f).getD []) = []
      · simp [hemp, resultProp]
      · cases hts : getCol df ("timestamp") with
        | none => simp [hemp, hts, resultProp]
        | some ts =>
          simp only [hemp, hts, resultProp, List.isEmpty_iff, if_neg hemp]
          exact ⟨by simp [hf], by simp⟩

/-- C5 witness: the three resolution cases evaluated on concrete tables
(all-zero sensor column; eligible requested column; ineligible requested
column with a non-empty eligible set). -/
theorem c5_resolve_witness :
    (getNonZeroColumns ⟨[("timestamp", [Cell.num 1]), ("class", [Cell.num 0]),
        ("P", [Cell.num 0])]⟩ = [] ∧
      plot ⟨[("timestamp", [Cell.num 1]), ("class", [Cell.num 0]),
        ("P", [Cell.num 0])]⟩ ("P") true ("x") = .error .noPlottableData) ∧
    (("P" : String) ∈ getNonZeroColumns ⟨[("timestamp", [Cell.num 1]),
        ("class", [Cell.num 0]), ("P", [Cell.num 5])]⟩ ∧
      resultProp (plot ⟨[("timestamp", [Cell.num 1]), ("class", [Cell.num 0]),
          ("P", [Cell.num 5])]⟩ ("P") true ("x"))
        (fun r => r.activeY = "P" ∧ ∀ s, Warning.fallbackChannel s ∉ r.warnings)) ∧
    (getNonZeroColumns ⟨[("timestamp", [Cell.num 1]), ("class", [Cell.num 0]),
        ("P", [Cell.num 5])]⟩ = ["P"] ∧
      ("Q" : String) ∉ getNonZeroColumns ⟨[("timestamp", [Cell.num 1]),
        ("class", [Cell.num 0]), ("P", [Cell.num 5])]⟩ ∧
      resultProp (plot ⟨[("timestamp", [Cell.num 1]), ("class", [Cell.num 0]),
          ("P", [Cell.num 5])]⟩ ("Q") true ("x"))
        (fun r => r.activeY = "P" ∧ Warning.fallbackChannel ("Q") ∈ r.warnings)) := by
  refine ⟨⟨by decide, (c5_resolve _ ("P") ("x")).1 (by decide)⟩,
    ⟨by decide, (c5_resolve _ ("P") ("x")).2.1 (by decide)⟩,
    by decide, by decide,
    (c5_resolve _ ("Q") ("x")).2.2 ("P") [] (by decide) (by decide)⟩

/-- C6 (code bug): `_get_non_zero_columns` is documented to return the
columns that are not all zeros or NaN, and the spec requires at least
one non-zero non-missing value; but `astype(bool)` casts float NaN to
`True`, so a column containing only NaN is returned.  On the table with
columns timestamp=[1], class=[0], S=[NaN], the code returns S as
eligible although S has no non-zero non-missing value (its only cell is
NaN, not a non-zero number). -/
theorem c6_nan_column_eligible :
    getNonZeroColumns ⟨[("timestamp", [Cell.num 1]), ("class", [Cell.num 0]),
        ("S", [Cell.na])]⟩ = ["S"] ∧
      (∀ v : Int, Cell.na ≠ Cell.num v) := by
  exact ⟨by decide, fun v h => by cases h⟩

lemma plot_ok_legend (df : Df) (y : String) (dd : Bool) (t : String) (r : PlotResult)
    (h : plot df y dd t = .ok r) : r.legend = legendEntries := by
  cases dd with
  | false =>
    simp only [plot, Bool.false_eq_true, if_false] at h
    cases hts : getCol df ("timestamp") with
    | none => rw [hts] at h; exact Except.noConfusion h
    | some ts =>
      rw [hts] at h
      cases hy : getCol df y with
      | none => rw [hy] at h; exact Except.noConfusion h
      | some yv =>
        rw [hy] at h
        injection h with h2
        rw [← h2]
  | true =>
    simp only [plot, if_true] at h
    cases hE : getNonZeroColumns df with
    | nil => rw [hE] at h; exact Except.noConfusion h
    | cons f rs =>
      rw [hE] at h
      simp only at h
      by_cases hc : (f :: rs).contains y
      · simp only [hc, if_true] at h
        by_cases hemp : ((getCol df y).getD []) = []
        · simp only [hemp, List.isEmpty_nil, if_true] at h
          exact Except.noConfusion h
        · rw [if_neg (by simpa [List.isEmpty_iff] using hemp)] at h
          cases hts : getCol df ("timestamp") with
          | none => rw [hts] at h; exact Except.noConfusion h
          | some ts =>
            rw [hts] at h
            injection h with h2
            rw [← h2]
      · simp only [hc, Bool.false_eq_true, if_false] at h
        by_cases hemp : ((getCol df f).getD []) = []
        · simp only [hemp, List.isEmpty_nil, if_true] at h
          exact Except.noConfusion h
        · rw [if_neg (by simpa [List.isEmpty_iff] using hemp)] at h
          cases hts : getCol df ("timestamp") with
          | none => rw [hts] at h; exact Except.noConfusion h
          | some ts =>
            rw [hts] at h
            injection h with h2
            rw [← h2]

/-- C8: every chart `plot` succeeds in building carries exactly the
legend `legendEntries`: one entry per `class_mapping` item, in the
mapping's fixed declaration order, named with the class code and display
name and colored by the class's color; the legend never depends on the
data, its length always equals the taxonomy size 17, and every taxonomy
code has a color (so the lookup never falls back).  The second conjunct
shows a successful concrete build. -/
theorem c8_legend :
    (∀ (df : Df) (y : String) (dd : Bool) (t : String),
      legendOfResult (plot df y dd t) = none ∨
        legendOfResult (plot df y dd t) = some legendEntries) ∧
    legendOfResult (plot ⟨[("timestamp", [Cell.num 1]), ("class", [Cell.num 0]),
        ("P", [Cell.num 5])]⟩ ("P") false ("x")) = some legendEntries ∧
    legendEntries = classMapping.map
      (fun p => ⟨toString p.1 ++ ": " ++ p.2,
        (classColors.lookup p.1).getD ("white")⟩) ∧
    legendEntries.length = classMapping.length ∧
    classMapping.length = 17 ∧
    (∀ p ∈ classMapping, (classColors.lookup p.1).isSome) := by
  refine ⟨?_, by decide, rfl, by simp [legendEntries], by decide, by decide⟩
  intro df y dd t
  cases he : plot df y dd t with
  | error e => left; simp [legendOfResult, he]
  | ok r =>
    right
    simp only [legendOfResult, he]
    rw [plot_ok_legend df y dd t r he]

/-- C9 counterexample: the claim that the y-axis label always equals the
name of the active (resolved) channel fails with the dropdown enabled.
On a table with eligible columns A and B (in this order), requesting B
(which is eligible, so B is the active channel) produces a chart whose
y-axis title is A, because `plot` titles the y-axis with
`available_y_axes[0]` whenever the dropdown is used (charts.py:257). -/
theorem c9_counterexample :
    activeYOfResult (plot ⟨[("timestamp", [Cell.num 1]), ("class", [Cell.num 0]),
        ("A", [Cell.num 1]), ("B", [Cell.num 2])]⟩ ("B") true ("x")) = some ("B") ∧
      yTitleOfResult (plot ⟨[("timestamp", [Cell.num 1]), ("class", [Cell.num 0]),
        ("A", [Cell.num 1]), ("B", [Cell.num 2])]⟩ ("B") true ("x")) = some ("A") ∧
      ("A" : String) ≠ "B" := by
  exact ⟨by decide, by decide, by decide⟩

/-- C9 amended: for every successfully built chart, the x-axis label is
"Timestamp"; the y-axis label equals the name of the active (resolved)
channel when the dropdown is disabled, while with the dropdown enabled
it is the first eligible channel — which differs from the active channel
exactly when the requested channel is eligible but not first. -/
theorem c9_amended (df : Df) (y : String) (dd : Bool) (t : String) :
    resultProp (plot df y dd t)
      (fun r => r.xaxisTitle = "Timestamp" ∧
        r.yaxisTitle =
          (if dd then (getNonZeroColumns df).headD ("") else r.activeY)) := by
  cases dd with
  | false =>
    simp only [plot, Bool.false_eq_true, if_false]
    cases hts : getCol df ("timestamp") with
    | none => simp [resultProp]
    | some ts =>
      cases hy : getCol df y with
      | none => simp [resultProp]
      | some yv => simp [resultProp]
  | true =>
    simp only [plot, if_true]
    cases hE : getNonZeroColumns df with
    | nil => simp [resultProp]
    | cons f rs =>
      by_cases hc : (f :: rs).contains y
      · simp only [hc, if_true]
        by_cases hemp : ((getCol df y).getD []) = []
        · simp [hemp, resultProp]
        · rw [if_neg (by simpa [List.isEmpty_iff] using hemp)]
          cases hts : getCol df ("timestamp") with
          | none => simp [resultProp]
          | some ts => simp [resultProp]
      · simp only [hc, Bool.false_eq_true, if_false]
        by_cases hemp : ((getCol df f).getD []) = []
        · simp [hemp, resultProp]
        · rw [if_neg (by simpa [List.isEmpty_iff] using hemp)]
          cases hts : getCol df ("timestamp") with
          | none => simp [resultProp]
          | some ts => simp [resultProp]

/-- C10: with the dropdown disabled (and the loaded table's timestamp
column present, as `_load_data` guarantees), `plot` never computes a
fallback and never raises the no-plottable-data error: the requested
y-axis column is plotted directly as the active channel with no dropdown
state and no fallback warning, and when the requested column is absent
the failure is the missing-column lookup error for that column — even
when every sensor column is all zeros (see the witness). -/
theorem c10_no_dropdown (df : Df) (y t : String) (ts : List Cell)
    (hts : getCol df ("timestamp") = some ts) :
    (getCol df y = none → plot df y false t = .error (.missingColumn y)) ∧
    plot df y false t ≠ .error .noPlottableData ∧
    resultProp (plot df y false t)
      (fun r => r.activeY = y ∧ r.dropdown = none ∧
        ∀ s, Warning.fallbackChannel s ∉ r.warnings) := by
  simp only [plot, Bool.false_eq_true, if_false, hts]
  cases hy : getCol df y with
  | none =>
    refine ⟨fun _ => rfl, by simp, ?_⟩
    simp [resultProp]
  | some yv =>
    refine ⟨fun habs => Option.noConfusion habs, by simp, ?_⟩
    simp [resultProp]

/-- C10 witness: on the table whose only sensor column P is all zeros
(empty eligible set), requesting the absent column Q without the
dropdown fails with the missing-column error for Q, not with the
no-plottable-data error. -/
theorem c10_no_dropdown_witness :
    getNonZeroColumns ⟨[("timestamp", [Cell.num 1]), ("class", [Cell.num 0]),
        ("P", [Cell.num 0])]⟩ = [] ∧
    ((getCol ⟨[("timestamp", [Cell.num 1]), ("class", [Cell.num 0]),
          ("P", [Cell.num 0])]⟩ ("Q") = none →
        plot ⟨[("timestamp", [Cell.num 1]), ("class", [Cell.num 0]),
          ("P", [Cell.num 0])]⟩ ("Q") false ("x") =
          .error (.missingColumn ("Q"))) ∧
      plot ⟨[("timestamp", [Cell.num 1]), ("class", [Cell.num 0]),
          ("P", [Cell.num 0])]⟩ ("Q") false ("x") ≠ .error .noPlottableData ∧
      resultProp (plot ⟨[("timestamp", [Cell.num 1]), ("class", [Cell.num 0]),
          ("P", [Cell.num 0])]⟩ ("Q") false ("x"))
        (fun r => r.activeY = "Q" ∧ r.dropdown = none ∧
          ∀ s, Warning.fallbackChannel s ∉ r.warnings)) :=
  ⟨by decide,
    c10_no_dropdown ⟨[("timestamp", [Cell.num 1]), ("class", [Cell.num 0]),
      ("P", [Cell.num 0])]⟩ ("Q") ("x") [Cell.num 1] (by decide)⟩
